import Mathlib

/-!
Shallow embedding of the simple_logger crate (src/src/lib.rs) together with the
small parts of the log crate it relies on (the Level and LevelFilter enums,
their ordering, LevelFilter::from_str, and the one-shot global registration).

Modelling conventions:
* Rust enums Level and LevelFilter are embedded with their discriminant values
  (Level: Error = 1 .. Trace = 5; LevelFilter: Off = 0 .. Trace = 5); the
  derived Rust Ord compares discriminants, embedded here via toNat.
* Rust str::starts_with is byte-wise literal comparison; on valid UTF-8 this
  coincides with character-list comparison, embedded via List.isPrefixOf.
* Vec::sort_by_key is a stable ascending sort; a stable sort's output is
  uniquely determined by the key and the original order, so it is embedded by
  Mathlib's insertionSort with a tie-preserving relation (less-or-equal on
  keys), which is stable in exactly that sense.
* usize arithmetic (wrapping_neg on string lengths) is Nat arithmetic
  modulo 2 ^ 64.
* The build modelled is the one with the threads and timestamps features on
  and the colored and stderr features off; the actual wall-clock rendering and
  the current thread's name are impure inputs and are passed in as strings.
-/

/-- Embeds log::Level (log crate): discriminants Error = 1 .. Trace = 5. -/
inductive Level where
  | error
  | warn
  | info
  | debug
  | trace
deriving DecidableEq

/-- Embeds log::LevelFilter (log crate): discriminants Off = 0 .. Trace = 5. -/
inductive LevelFilter where
  | off
  | error
  | warn
  | info
  | debug
  | trace
deriving DecidableEq

/-- Discriminant of log::Level; the derived Rust Ord compares these. -/
def Level.toNat : Level → Nat
  | .error => 1
  | .warn => 2
  | .info => 3
  | .debug => 4
  | .trace => 5

/-- Discriminant of log::LevelFilter; the derived Rust Ord compares these. -/
def LevelFilter.toNat : LevelFilter → Nat
  | .off => 0
  | .error => 1
  | .warn => 2
  | .info => 3
  | .debug => 4
  | .trace => 5

/-- Embeds log::Level::to_level_filter. -/
def Level.toLevelFilter : Level → LevelFilter
  | .error => .error
  | .warn => .warn
  | .info => .info
  | .debug => .debug
  | .trace => .trace

/-- Embeds log::LevelFilter::from_usize (inverse of the discriminant). -/
def LevelFilter.fromUsize : Nat → Option LevelFilter
  | 0 => some .off
  | 1 => some .error
  | 2 => some .warn
  | 3 => some .info
  | 4 => some .debug
  | 5 => some .trace
  | _ => none

/-- Embeds log::LOG_LEVEL_NAMES. -/
def LOG_LEVEL_NAMES : List String := ["OFF", "ERROR", "WARN", "INFO", "DEBUG", "TRACE"]

/-- Embeds log::Level::as_str (LOG_LEVEL_NAMES at the Level's discriminant),
which is what Display (hence record.level().to_string()) prints. -/
def Level.asStr : Level → String
  | .error => "ERROR"
  | .warn => "WARN"
  | .info => "INFO"
  | .debug => "DEBUG"
  | .trace => "TRACE"

/-- Embeds u8::to_ascii_lowercase lifted to chars: ASCII uppercase letters are
mapped to lowercase, every other character is unchanged. -/
def asciiLower (c : Char) : Char :=
  if 65 ≤ c.toNat ∧ c.toNat ≤ 90 then Char.ofNat (c.toNat + 32) else c

/-- Embeds str::eq_ignore_ascii_case: equality after ASCII-lowercasing both
sides. -/
def eqIgnoreAsciiCase (a b : String) : Bool :=
  a.data.map asciiLower == b.data.map asciiLower

/-- Embeds Iterator::position: index of the first element satisfying the
predicate. -/
def position (p : α → Bool) : List α → Option Nat
  | [] => Option.none
  | a :: t => if p a then some 0 else (position p t).map (· + 1)

/-- Embeds the FromStr instance of log::LevelFilter: position of the first
case-insensitive match in LOG_LEVEL_NAMES, converted back through from_usize;
None when no name matches. -/
def levelFilterFromStr (s : String) : Option LevelFilter :=
  (position (fun name => eqIgnoreAsciiCase name s) LOG_LEVEL_NAMES).bind LevelFilter.fromUsize

/-- Embeds str::starts_with for a string pattern: byte-wise literal match at
the start, which on valid UTF-8 is character-list isPrefixOf. -/
def starts_with (s pat : String) : Bool :=
  pat.data.isPrefixOf s.data

/-- Embeds the Timestamps enum of src/src/lib.rs. The constructor for
Timestamps::Local is named localTime because local is a Lean keyword; the
UtcOffset payload is modelled as the offset in whole seconds. -/
inductive Timestamps where
  | none
  | localTime
  | utc
  | utcOffset (offsetSeconds : Int)
deriving DecidableEq

/-- Embeds the SimpleLogger struct of src/src/lib.rs (threads and timestamps
features on, colored feature off so no colors field is needed; the
timestamps_format field only selects the externally rendered clock text and is
absorbed into the rendered-timestamp input of log). -/
structure SimpleLogger where
  default_level : LevelFilter
  module_levels : List (String × LevelFilter)
  threads : Bool
  timestamps : Timestamps
deriving DecidableEq

/-- Embeds SimpleLogger::new. -/
def SimpleLogger.new : SimpleLogger :=
  { default_level := .trace
    module_levels := []
    threads := false
    timestamps := .utc }

/-- Embeds SimpleLogger::with_level. -/
def SimpleLogger.with_level (l : SimpleLogger) (level : LevelFilter) : SimpleLogger :=
  { l with default_level := level }

/-- Embeds SimpleLogger::env, with the value of the RUST_LOG environment
variable passed in (None when the variable is unset): the chain
ok().as_deref().map(from_str).and_then(Result::ok).unwrap_or(default). -/
def SimpleLogger.env (l : SimpleLogger) (rust_log : Option String) : SimpleLogger :=
  { l with default_level := ((rust_log.map levelFilterFromStr).bind id).getD l.default_level }

/-- Embeds usize::wrapping_neg applied to a string length. -/
def wrappingNeg (n : Nat) : Nat :=
  (2 ^ 64 - n % 2 ^ 64) % 2 ^ 64

/-- The sort key used by with_module_level: name.len().wrapping_neg(). -/
def sortKey (r : String × LevelFilter) : Nat :=
  wrappingNeg r.1.length

/-- Ascending comparison on sort keys. Vec::sort_by_key sorts ascending and is
stable; insertionSort with this reflexive relation is that stable sort. -/
def moduleLevelLE (a b : String × LevelFilter) : Prop :=
  sortKey a ≤ sortKey b

instance : DecidableRel moduleLevelLE := fun a b => Nat.decLe (sortKey a) (sortKey b)

instance : IsTotal (String × LevelFilter) moduleLevelLE :=
  ⟨fun a b => Nat.le_total (sortKey a) (sortKey b)⟩

instance : IsTrans (String × LevelFilter) moduleLevelLE :=
  ⟨fun _ _ _ h h' => Nat.le_trans h h'⟩

/-- Embeds SimpleLogger::with_module_level: push the new (target, level) pair
at the end, then stable-sort ascending by wrapping_neg of the name length. -/
def SimpleLogger.with_module_level (l : SimpleLogger) (target : String) (level : LevelFilter) :
    SimpleLogger :=
  { l with module_levels :=
      List.insertionSort moduleLevelLE (l.module_levels ++ [(target, level)]) }

/-- Embeds SimpleLogger::max_level: the maximum of the module rule levels (an
Option, None when there are no rules; Rust Iterator::max keeps the later
element on ties) combined with the default level through Ord::max. -/
def SimpleLogger.max_level (l : SimpleLogger) : LevelFilter :=
  let m := (l.module_levels.map Prod.snd).foldl
    (fun acc x =>
      match acc with
      | Option.none => some x
      | some a => some (if a.toNat ≤ x.toNat then x else a))
    Option.none
  match m with
  | some lvl => if l.default_level.toNat < lvl.toNat then lvl else l.default_level
  | Option.none => l.default_level

/-- Embeds the enabled method of the Log impl in src/src/lib.rs: compare the
record level (as a filter) against the level of the first module rule whose
name is a starts_with match for the target, falling back to the default
level. -/
def SimpleLogger.enabled (l : SimpleLogger) (target : String) (level : Level) : Bool :=
  decide (level.toLevelFilter.toNat ≤
    (((l.module_levels.find? (fun r => starts_with target r.1)).map Prod.snd).getD
      l.default_level).toNat)

/-- Embeds format ":<5" padding (left-aligned in a field of width 5): pad on
the right with spaces up to 5 characters, longer strings unchanged. -/
def pad5 (s : String) : String :=
  s ++ String.mk (List.replicate (5 - s.length) ' ')

/-- Embeds log::Record as far as the log method reads it: level, target,
module_path and the formatted message (record.args() rendered to text). -/
structure LogRecord where
  level : Level
  target : String
  module_path : Option String
  args : String
deriving DecidableEq

/-- Embeds the log method of the Log impl in src/src/lib.rs (colored feature
off, threads and timestamps features on, non-nightly). The rendered wall-clock
text (now) and the current thread's name (thread_name, None when the thread is
unnamed) are impure inputs. Returns the printed line, or none when the record
is not enabled. -/
def SimpleLogger.log (l : SimpleLogger) (now : String) (thread_name : Option String)
    (r : LogRecord) : Option String :=
  if l.enabled r.target r.level then
    let level_string := pad5 r.level.asStr
    let target := if r.target ≠ "" then r.target else r.module_path.getD ""
    let thread := if l.threads then "@" ++ thread_name.getD "?" else ""
    let timestamp :=
      match l.timestamps with
      | Timestamps.none => ""
      | Timestamps.localTime => now ++ " "
      | Timestamps.utc => now ++ " "
      | Timestamps.utcOffset _ => now ++ " "
    some (timestamp ++ level_string ++ " [" ++ target ++ thread ++ "] " ++ r.args)
  else
    Option.none

/-- Embeds log::SetLoggerError (an opaque unit-like error value). -/
inductive SetLoggerError where
  | mk
deriving DecidableEq

/-- Modelled from the spec: the process-wide logging state owned by the log
crate (not part of src/): the one-shot registration slot for the active logger
and the process-wide numeric severity ceiling. -/
structure GlobalState where
  logger : Option SimpleLogger
  maxLevel : LevelFilter
deriving DecidableEq

/-- Modelled from the spec: log::set_max_level (not part of src/), which
unconditionally stores the process-wide severity ceiling. -/
def set_max_level (s : GlobalState) (lvl : LevelFilter) : GlobalState :=
  { s with maxLevel := lvl }

/-- Modelled from the spec: log::set_boxed_logger (not part of src/): exactly
one engine may be installed; a second attempt fails with the registration
conflict error and leaves the installed engine untouched. -/
def set_boxed_logger (s : GlobalState) (l : SimpleLogger) :
    GlobalState × Except SetLoggerError Unit :=
  match s.logger with
  | some _ => (s, Except.error SetLoggerError.mk)
  | Option.none => ({ s with logger := some l }, Except.ok ())

/-- Embeds SimpleLogger::init: set the process-wide ceiling to max_level, then
attempt the one-shot registration. -/
def SimpleLogger.init (l : SimpleLogger) (s : GlobalState) :
    GlobalState × Except SetLoggerError Unit :=
  set_boxed_logger (set_max_level s l.max_level) l

/-! Shared helper lemmas. -/

/-- Converting a Level to a LevelFilter preserves the discriminant. -/
theorem Level.toLevelFilter_toNat (s : Level) : s.toLevelFilter.toNat = s.toNat := by
  cases s <;> rfl

/-- List.isPrefixOf is the existence of a completing suffix. -/
theorem isPrefixOf_iff_exists_append (p t : List Char) :
    p.isPrefixOf t = true ↔ ∃ r, p ++ r = t := by
  induction p generalizing t with
  | nil => simp [List.isPrefixOf]
  | cons a as ih =>
    cases t with
    | nil => simp [List.isPrefixOf]
    | cons b bs =>
      simp only [List.isPrefixOf, Bool.and_eq_true, beq_iff_eq, ih]
      constructor
      · rintro ⟨hab, r, hr⟩
        exact ⟨r, by rw [hab, List.cons_append, hr]⟩
      · rintro ⟨r, hr⟩
        rw [List.cons_append] at hr
        obtain ⟨hab, htl⟩ := List.cons.injEq .. ▸ hr
        exact ⟨hab, r, htl⟩

/-- The starts_with embedding recognises exactly the literal string
decompositions t = pat ++ rest. -/
theorem starts_with_iff (t pat : String) :
    starts_with t pat = true ↔ ∃ rest : String, t = pat ++ rest := by
  unfold starts_with
  rw [isPrefixOf_iff_exists_append]
  constructor
  · rintro ⟨r, hr⟩
    refine ⟨String.mk r, String.ext ?_⟩
    rw [String.data_append]
    exact hr.symm
  · rintro ⟨rest, hrest⟩
    exact ⟨rest.data, by rw [hrest, String.data_append]⟩

/-- First-match characterisation of List.find?. -/
theorem find?_eq_some_iff_decomp (f : α → Bool) (L : List α) (r : α) :
    L.find? f = some r ↔
      ∃ u v, L = u ++ r :: v ∧ (∀ e ∈ u, f e = false) ∧ f r = true := by
  induction L with
  | nil => simp
  | cons a t ih =>
    cases hfa : f a with
    | true =>
      rw [List.find?_cons_of_pos _ hfa]
      constructor
      · intro h
        obtain rfl : a = r := Option.some.inj h
        refine ⟨[], t, rfl, ?_, hfa⟩
        intro e he
        exact absurd he (List.not_mem_nil e)
      · rintro ⟨u, v, hL, hu, hr⟩
        cases u with
        | nil =>
          rw [List.nil_append] at hL
          injection hL with h1 h2
          rw [h1]
        | cons b u2 =>
          rw [List.cons_append] at hL
          injection hL with h1 h2
          have hb : f b = false := hu b (List.mem_cons_self b u2)
          rw [h1, hb] at hfa
          exact Bool.noConfusion hfa
    | false =>
      rw [List.find?_cons_of_neg _ (by simp [hfa])]
      rw [ih]
      constructor
      · rintro ⟨u, v, hL, hu, hr⟩
        refine ⟨a :: u, v, ?_, ?_, hr⟩
        · rw [List.cons_append, hL]
        · intro e he
          rcases List.mem_cons.mp he with rfl | hmem
          · exact hfa
          · exact hu e hmem
      · rintro ⟨u, v, hL, hu, hr⟩
        cases u with
        | nil =>
          rw [List.nil_append] at hL
          injection hL with h1 h2
          rw [h1, hr] at hfa
          exact Bool.noConfusion hfa
        | cons b u2 =>
          rw [List.cons_append] at hL
          injection hL with h1 h2
          refine ⟨u2, v, h2, ?_, hr⟩
          intro e he
          exact hu e (List.mem_cons_of_mem b he)

/-- A non-empty pattern never starts_with-matches the empty string. -/
theorem starts_with_empty_eq_false (pat : String) (h : pat ≠ "") :
    starts_with "" pat = false := by
  unfold starts_with
  cases hd : pat.data with
  | nil => exact absurd (String.ext (hd.trans rfl) : pat = "") h
  | cons c cs => rfl

/-! Claim theorems. -/

/-- C3: with rules (serde, Error) and (serde_json, Trace) inserted in either
order, enabled(serde_json, Trace) is true and enabled(serde, Trace) is false;
with rules (a, Off) and (a::b, Info) inserted in either order,
enabled(a::b, Info) is true and enabled(a, Info) is false: the longer rule
name wins regardless of insertion order and of the default level d. -/
theorem c3_longer_rule_wins (d : LevelFilter) :
    ((((SimpleLogger.new.with_level d).with_module_level "serde" .error).with_module_level
        "serde_json" .trace).enabled "serde_json" .trace = true) ∧
    ((((SimpleLogger.new.with_level d).with_module_level "serde" .error).with_module_level
        "serde_json" .trace).enabled "serde" .trace = false) ∧
    ((((SimpleLogger.new.with_level d).with_module_level "serde_json" .trace).with_module_level
        "serde" .error).enabled "serde_json" .trace = true) ∧
    ((((SimpleLogger.new.with_level d).with_module_level "serde_json" .trace).with_module_level
        "serde" .error).enabled "serde" .trace = false) ∧
    ((((SimpleLogger.new.with_level d).with_module_level "a" .off).with_module_level
        "a::b" .info).enabled "a::b" .info = true) ∧
    ((((SimpleLogger.new.with_level d).with_module_level "a" .off).with_module_level
        "a::b" .info).enabled "a" .info = false) ∧
    ((((SimpleLogger.new.with_level d).with_module_level "a::b" .info).with_module_level
        "a" .off).enabled "a::b" .info = true) ∧
    ((((SimpleLogger.new.with_level d).with_module_level "a::b" .info).with_module_level
        "a" .off).enabled "a" .info = false) :=
  ⟨rfl, rfl, rfl, rfl, rfl, rfl, rfl, rfl⟩

/-- C8: the enabled decision is monotone in the record level: if a level s2
is enabled for a target then so is every level s1 at or below it in the log
crate ordering of levels (Error lowest, Trace highest), because both are
compared against the same matched filter. -/
theorem c8_enabled_monotone (l : SimpleLogger) (t : String) (s1 s2 : Level)
    (h12 : s1.toNat ≤ s2.toNat) (h2 : l.enabled t s2 = true) : l.enabled t s1 = true := by
  unfold SimpleLogger.enabled at h2 ⊢
  rw [decide_eq_true_iff] at h2 ⊢
  calc s1.toLevelFilter.toNat
      = s1.toNat := Level.toLevelFilter_toNat s1
    _ ≤ s2.toNat := h12
    _ = s2.toLevelFilter.toNat := (Level.toLevelFilter_toNat s2).symm
    _ ≤ _ := h2

/-- Witness for C8 at a concrete instance. -/
theorem c8_enabled_monotone_witness :
    (SimpleLogger.new.with_level .info).enabled "app" Level.error = true :=
  c8_enabled_monotone (SimpleLogger.new.with_level .info) "app" Level.error Level.warn
    (by decide) (by decide)

/-- The Iterator::max fold inside max_level, started from some a, yields the
maximum of a and the list elements (by discriminant). -/
theorem foldl_iter_max_some (xs : List LevelFilter) (a : LevelFilter) :
    ∃ m : LevelFilter,
      xs.foldl
        (fun acc x =>
          match acc with
          | Option.none => some x
          | some a => some (if a.toNat ≤ x.toNat then x else a))
        (some a) = some m ∧
      m.toNat = max a.toNat ((xs.map LevelFilter.toNat).foldr max 0) := by
  induction xs generalizing a with
  | nil =>
    refine ⟨a, rfl, ?_⟩
    simp
  | cons x t ih =>
    obtain ⟨m, hm, hval⟩ := ih (if a.toNat ≤ x.toNat then x else a)
    refine ⟨m, hm, ?_⟩
    rw [hval]
    by_cases hax : a.toNat ≤ x.toNat <;> simp only [hax, if_true, if_false, List.map_cons,
      List.foldr_cons, reduceIte] <;> omega

/-- C4: max_level computes the maximum of the default level and all module
rule levels (compared by discriminant), and with zero rules it is exactly the
default level. -/
theorem c4_max_level_eq_max (l : SimpleLogger) :
    l.max_level.toNat =
      max l.default_level.toNat
        (((l.module_levels.map Prod.snd).map LevelFilter.toNat).foldr max 0) ∧
    (l.module_levels = [] → l.max_level = l.default_level) := by
  constructor
  · unfold SimpleLogger.max_level
    cases hx : l.module_levels.map Prod.snd with
    | nil =>
      simp only [hx, List.foldl_nil, List.map_nil, List.foldr_nil]
      omega
    | cons x t =>
      simp only [hx, List.foldl_cons]
      obtain ⟨m, hm, hval⟩ := foldl_iter_max_some t x
      rw [hm]
      simp only [List.map_cons, List.foldr_cons]
      by_cases hdm : l.default_level.toNat < m.toNat <;> simp only [hdm, if_true, if_false,
        reduceIte] <;> omega
  · intro h
    unfold SimpleLogger.max_level
    rw [h]
    rfl

/-- Witness for C4 applied at a concrete configuration. -/
theorem c4_max_level_eq_max_witness :
    ((SimpleLogger.new.with_level .warn).with_module_level "a" .debug).max_level.toNat = 4 :=
  (c4_max_level_eq_max ((SimpleLogger.new.with_level .warn).with_module_level "a" .debug)).1.trans
    (by decide)

/-- C5: calling init when an engine is already installed returns the
registration-conflict error value (no panic in the model: init is a total
function) and leaves the installed engine untouched. In this embedding init
is also the only operation whose result type carries an error at all. -/
theorem c5_init_conflict (s : GlobalState) (l0 l : SimpleLogger) (h : s.logger = some l0) :
    (l.init s).2 = Except.error SetLoggerError.mk ∧ (l.init s).1.logger = some l0 := by
  unfold SimpleLogger.init set_boxed_logger set_max_level
  simp only [h]
  exact ⟨trivial, trivial⟩

/-- Witness for C5 at a concrete already-installed state. -/
theorem c5_init_conflict_witness :
    ((SimpleLogger.new.with_level .warn).init
        ⟨some SimpleLogger.new, .trace⟩).2 = Except.error SetLoggerError.mk ∧
      (((SimpleLogger.new.with_level .warn).init
        ⟨some SimpleLogger.new, .trace⟩).1).logger = some SimpleLogger.new :=
  c5_init_conflict ⟨some SimpleLogger.new, .trace⟩ SimpleLogger.new
    (SimpleLogger.new.with_level .warn) rfl

/-- A target that has no literal decomposition over a pattern fails the
starts_with test. -/
theorem starts_with_eq_false_of_not_exists (t pat : String)
    (hn : ¬ ∃ rest : String, t = pat ++ rest) : starts_with t pat = false := by
  cases h : starts_with t pat with
  | false => rfl
  | true => exact absurd ((starts_with_iff t pat).mp h) hn

/-- C1: the enabled decision is true exactly when the record level is at or
below (in the log crate LevelFilter ordering, Off lowest and Trace highest)
the level of the first rule, in stored order, whose name is a literal string
prefix of the target, or at or below the default level when no rule name is a
literal string prefix of the target. -/
theorem c1_enabled_iff_first_literal_match (l : SimpleLogger) (t : String) (s : Level) :
    l.enabled t s = true ↔
      ((∃ u r v, l.module_levels = u ++ r :: v ∧
          (∀ e ∈ u, ¬ ∃ rest : String, t = e.1 ++ rest) ∧
          (∃ rest : String, t = r.1 ++ rest) ∧
          s.toLevelFilter.toNat ≤ r.2.toNat) ∨
        ((∀ r ∈ l.module_levels, ¬ ∃ rest : String, t = r.1 ++ rest) ∧
          s.toLevelFilter.toNat ≤ l.default_level.toNat)) := by
  unfold SimpleLogger.enabled
  rw [decide_eq_true_iff]
  cases hfind : l.module_levels.find? (fun r => starts_with t r.1) with
  | none =>
    have hnone := List.find?_eq_none.mp hfind
    simp only [Option.map_none', Option.getD_none]
    constructor
    · intro hle
      right
      refine ⟨?_, hle⟩
      intro r hr hex
      exact hnone r hr ((starts_with_iff t r.1).mpr hex)
    · rintro (⟨u, rr, v, hL, hu, hex, hle⟩ | ⟨hall, hle⟩)
      · refine absurd ((starts_with_iff t rr.1).mpr hex) (hnone rr ?_)
        rw [hL]
        exact List.mem_append_right u (List.mem_cons_self rr v)
      · exact hle
  | some rr =>
    obtain ⟨u, v, hL, hu, hf⟩ := (find?_eq_some_iff_decomp _ _ _).mp hfind
    simp only [Option.map_some', Option.getD_some]
    constructor
    · intro hle
      left
      refine ⟨u, rr, v, hL, ?_, (starts_with_iff t rr.1).mp hf, hle⟩
      intro e he hex
      have hfe := hu e he
      rw [(starts_with_iff t e.1).mpr hex] at hfe
      exact Bool.noConfusion hfe
    · rintro (⟨u2, r2, v2, hL2, hu2, hex2, hle2⟩ | ⟨hall, hle⟩)
      · have h2 : l.module_levels.find? (fun r => starts_with t r.1) = some r2 := by
          refine (find?_eq_some_iff_decomp _ _ _).mpr ⟨u2, v2, hL2, ?_,
            (starts_with_iff t r2.1).mpr hex2⟩
          intro e he
          exact starts_with_eq_false_of_not_exists t e.1 (hu2 e he)
        rw [hfind] at h2
        obtain rfl : rr = r2 := Option.some.inj h2
        exact hle2
      · refine absurd ((starts_with_iff t rr.1).mp hf) (hall rr ?_)
        rw [hL]
        exact List.mem_append_right u (List.mem_cons_self rr v)

/-- C7 counterexample: a rule table whose single rule has the empty name. On
the empty target the decision is made by that rule (Trace), not by the
default level (Off): the decision is true while the comparison against the
default level is false, so the decision on the empty target is not in general
made against the default level. -/
theorem c7_counterexample_empty_rule :
    ((SimpleLogger.new.with_level .off).with_module_level "" .trace).enabled "" Level.error
        = true ∧
      decide (Level.error.toLevelFilter.toNat ≤
        ((SimpleLogger.new.with_level .off).with_module_level "" .trace).default_level.toNat)
        = false :=
  ⟨rfl, rfl⟩

/-- C7 amended: for every rule table all of whose rule names are non-empty,
the empty target matches no rule (the first-match scan finds nothing) and the
decision compares the severity against the default level. -/
theorem c7_amended_empty_target_default (l : SimpleLogger) (s : Level)
    (h : ∀ r ∈ l.module_levels, r.1 ≠ "") :
    l.module_levels.find? (fun r => starts_with "" r.1) = Option.none ∧
      l.enabled "" s = decide (s.toLevelFilter.toNat ≤ l.default_level.toNat) := by
  have hfind : l.module_levels.find? (fun r => starts_with "" r.1) = Option.none := by
    rw [List.find?_eq_none]
    intro x hx
    rw [starts_with_empty_eq_false x.1 (h x hx)]
    exact Bool.noConfusion
  refine ⟨hfind, ?_⟩
  unfold SimpleLogger.enabled
  rw [hfind]
  rfl

/-- Witness for the amended C7 at a concrete one-rule table. -/
theorem c7_amended_empty_target_default_witness :
    (SimpleLogger.new.with_module_level "a" .info).module_levels.find?
        (fun r => starts_with "" r.1) = Option.none ∧
      (SimpleLogger.new.with_module_level "a" .info).enabled "" Level.info =
        decide (Level.info.toLevelFilter.toNat ≤
          (SimpleLogger.new.with_module_level "a" .info).default_level.toNat) :=
  c7_amended_empty_target_default (SimpleLogger.new.with_module_level "a" .info) Level.info
    (by decide)

/-- C6 counterexample: the value "off" is not one of the five level names
(Trace, Debug, Info, Warn, Error), even case-insensitively, yet env changes
the default level from Trace to Off on reading it, because the log crate's
from_str also recognises OFF. -/
theorem c6_counterexample_off_value :
    (SimpleLogger.new.env (some "off")).default_level = LevelFilter.off ∧
      SimpleLogger.new.default_level = LevelFilter.trace ∧
      (["TRACE", "DEBUG", "INFO", "WARN", "ERROR"].all
        (fun n => !eqIgnoreAsciiCase n "off")) = true := by
  decide

/-- C6 amended: env changes the default level exactly for the six strings
OFF, ERROR, WARN, INFO, DEBUG, TRACE compared case-insensitively (the five
level names plus OFF), setting the default to the corresponding filter; any
other value, and an unset variable, leaves the logger unchanged. -/
theorem c6_amended_env_recognises_six_names (l : SimpleLogger) (s : String) :
    (l.env Option.none = l) ∧
    (eqIgnoreAsciiCase "OFF" s = true → (l.env (some s)).default_level = .off) ∧
    (eqIgnoreAsciiCase "ERROR" s = true → (l.env (some s)).default_level = .error) ∧
    (eqIgnoreAsciiCase "WARN" s = true → (l.env (some s)).default_level = .warn) ∧
    (eqIgnoreAsciiCase "INFO" s = true → (l.env (some s)).default_level = .info) ∧
    (eqIgnoreAsciiCase "DEBUG" s = true → (l.env (some s)).default_level = .debug) ∧
    (eqIgnoreAsciiCase "TRACE" s = true → (l.env (some s)).default_level = .trace) ∧
    ((∀ n ∈ LOG_LEVEL_NAMES, eqIgnoreAsciiCase n s = false) → l.env (some s) = l) := by
  refine ⟨rfl, ?_, ?_, ?_, ?_, ?_, ?_, ?_⟩
  · intro h
    simp only [eqIgnoreAsciiCase, beq_iff_eq] at h
    have hlfs : levelFilterFromStr s = some .off := by
      simp only [levelFilterFromStr, LOG_LEVEL_NAMES, position, eqIgnoreAsciiCase, ← h]
      decide
    simp [SimpleLogger.env, hlfs]
  · intro h
    simp only [eqIgnoreAsciiCase, beq_iff_eq] at h
    have hlfs : levelFilterFromStr s = some .error := by
      simp only [levelFilterFromStr, LOG_LEVEL_NAMES, position, eqIgnoreAsciiCase, ← h]
      decide
    simp [SimpleLogger.env, hlfs]
  · intro h
    simp only [eqIgnoreAsciiCase, beq_iff_eq] at h
    have hlfs : levelFilterFromStr s = some .warn := by
      simp only [levelFilterFromStr, LOG_LEVEL_NAMES, position, eqIgnoreAsciiCase, ← h]
      decide
    simp [SimpleLogger.env, hlfs]
  · intro h
    simp only [eqIgnoreAsciiCase, beq_iff_eq] at h
    have hlfs : levelFilterFromStr s = some .info := by
      simp only [levelFilterFromStr, LOG_LEVEL_NAMES, position, eqIgnoreAsciiCase, ← h]
      decide
    simp [SimpleLogger.env, hlfs]
  · intro h
    simp only [eqIgnoreAsciiCase, beq_iff_eq] at h
    have hlfs : levelFilterFromStr s = some .debug := by
      simp only [levelFilterFromStr, LOG_LEVEL_NAMES, position, eqIgnoreAsciiCase, ← h]
      decide
    simp [SimpleLogger.env, hlfs]
  · intro h
    simp only [eqIgnoreAsciiCase, beq_iff_eq] at h
    have hlfs : levelFilterFromStr s = some .trace := by
      simp only [levelFilterFromStr, LOG_LEVEL_NAMES, position, eqIgnoreAsciiCase, ← h]
      decide
    simp [SimpleLogger.env, hlfs]
  · intro h
    have h0 := h "OFF" (by simp [LOG_LEVEL_NAMES])
    have h1 := h "ERROR" (by simp [LOG_LEVEL_NAMES])
    have h2 := h "WARN" (by simp [LOG_LEVEL_NAMES])
    have h3 := h "INFO" (by simp [LOG_LEVEL_NAMES])
    have h4 := h "DEBUG" (by simp [LOG_LEVEL_NAMES])
    have h5 := h "TRACE" (by simp [LOG_LEVEL_NAMES])
    have hlfs : levelFilterFromStr s = Option.none := by
      simp [levelFilterFromStr, LOG_LEVEL_NAMES, position, h0, h1, h2, h3, h4, h5]
    simp [SimpleLogger.env, hlfs]

/-- Witness for the amended C6: a mixed-case recognised value and an
unrecognised value. -/
theorem c6_amended_env_recognises_six_names_witness :
    (SimpleLogger.new.env (some "TrAcE")).default_level = LevelFilter.trace ∧
      SimpleLogger.new.env (some "bogus") = SimpleLogger.new :=
  ⟨(c6_amended_env_recognises_six_names SimpleLogger.new "TrAcE").2.2.2.2.2.2.1 (by decide),
   (c6_amended_env_recognises_six_names SimpleLogger.new "bogus").2.2.2.2.2.2.2 (by decide)⟩

/-- C9: every emitted line is assembled, in order, from the timestamp segment
(empty when timestamps are off, otherwise the rendered clock text followed by
one space), the level name padded to the fixed width 5, a space and an
opening bracket, the target (the record target, or the module path when the
target is empty), the thread segment (empty when threads are off, otherwise
an at-sign followed by the thread name or the question-mark fallback), a
closing bracket and a space, and the message. -/
theorem c9_log_line_assembly (l : SimpleLogger) (now : String) (tn : Option String)
    (r : LogRecord) (line : String) (h : l.log now tn r = some line) :
    ∃ ts lvl tgt thr,
      line = ts ++ lvl ++ " [" ++ tgt ++ thr ++ "] " ++ r.args ∧
      (l.timestamps = Timestamps.none → ts = "") ∧
      (l.timestamps ≠ Timestamps.none → ts = now ++ " ") ∧
      lvl = pad5 r.level.asStr ∧
      lvl.length = 5 ∧
      tgt = (if r.target ≠ "" then r.target else r.module_path.getD "") ∧
      (l.threads = false → thr = "") ∧
      (l.threads = true → thr = "@" ++ tn.getD "?") := by
  have hlen : (pad5 r.level.asStr).length = 5 := by
    cases hr : r.level <;> decide
  unfold SimpleLogger.log at h
  cases hen : l.enabled r.target r.level with
  | false =>
    rw [hen] at h
    exact absurd h (by simp)
  | true =>
    rw [hen] at h
    rw [if_pos rfl] at h
    refine ⟨(match l.timestamps with
        | Timestamps.none => ""
        | Timestamps.localTime => now ++ " "
        | Timestamps.utc => now ++ " "
        | Timestamps.utcOffset _ => now ++ " "),
      pad5 r.level.asStr,
      (if r.target ≠ "" then r.target else r.module_path.getD ""),
      (if l.threads then "@" ++ tn.getD "?" else ""),
      (Option.some.inj h).symm, ?_, ?_, rfl, hlen, rfl, ?_, ?_⟩
    · intro ht
      rw [ht]
    · intro hne
      cases hts : l.timestamps with
      | none => exact absurd hts hne
      | localTime => rfl
      | utc => rfl
      | utcOffset o => rfl
    · intro ht
      rw [ht]
      rfl
    · intro ht
      rw [ht]
      rfl

/-- Witness for C9 at a concrete configuration and record. -/
theorem c9_log_line_assembly_witness :
    ∃ ts lvl tgt thr,
      "T INFO  [app] hi" = ts ++ lvl ++ " [" ++ tgt ++ thr ++ "] " ++
        (LogRecord.mk Level.info "app" Option.none "hi").args ∧
      (SimpleLogger.new.timestamps = Timestamps.none → ts = "") ∧
      (SimpleLogger.new.timestamps ≠ Timestamps.none → ts = "T" ++ " ") ∧
      lvl = pad5 (LogRecord.mk Level.info "app" Option.none "hi").level.asStr ∧
      lvl.length = 5 ∧
      tgt = (if (LogRecord.mk Level.info "app" Option.none "hi").target ≠ "" then
        (LogRecord.mk Level.info "app" Option.none "hi").target
        else (LogRecord.mk Level.info "app" Option.none "hi").module_path.getD "") ∧
      (SimpleLogger.new.threads = false → thr = "") ∧
      (SimpleLogger.new.threads = true → thr = "@" ++ (Option.none : Option String).getD "?") :=
  c9_log_line_assembly SimpleLogger.new "T" Option.none
    (LogRecord.mk Level.info "app" Option.none "hi") "T INFO  [app] hi" (by decide)

/-- Insertion of an element after all elements whose key is not above it:
where a stable ascending sort puts a newly appended element. -/
def insertLast (x : String × LevelFilter) :
    List (String × LevelFilter) → List (String × LevelFilter)
  | [] => [x]
  | b :: t => if sortKey x < sortKey b then x :: b :: t else b :: insertLast x t

/-- orderedInsert (which ties to the front) commutes with insertLast (which
ties to the back). -/
theorem orderedInsert_insertLast (m : List (String × LevelFilter))
    (a x : String × LevelFilter) :
    List.orderedInsert moduleLevelLE a (insertLast x m) =
      insertLast x (List.orderedInsert moduleLevelLE a m) := by
  induction m with
  | nil =>
    by_cases h : moduleLevelLE a x
    · have hn : ¬ sortKey x < sortKey a := Nat.not_lt.mpr h
      simp [insertLast, List.orderedInsert, h, hn]
    · have hlt : sortKey x < sortKey a := Nat.not_le.mp (h : ¬ sortKey a ≤ sortKey x)
      simp [insertLast, List.orderedInsert, h, hlt]
  | cons b t ih =>
    by_cases h1 : sortKey x < sortKey b
    · by_cases h2 : moduleLevelLE a x
      · have h4 : moduleLevelLE a b :=
          Nat.le_trans (h2 : sortKey a ≤ sortKey x) (Nat.le_of_lt h1)
        have h5 : ¬ sortKey x < sortKey a := Nat.not_lt.mpr h2
        simp [insertLast, List.orderedInsert, h1, h2, h4, h5]
      · have h2' : sortKey x < sortKey a := Nat.not_le.mp (h2 : ¬ sortKey a ≤ sortKey x)
        by_cases h4 : moduleLevelLE a b
        · simp [insertLast, List.orderedInsert, h1, h2, h2', h4]
        · simp [insertLast, List.orderedInsert, h1, h2, h2', h4]
    · have h1' : sortKey b ≤ sortKey x := Nat.not_lt.mp h1
      by_cases h2 : moduleLevelLE a b
      · have h5 : ¬ sortKey x < sortKey a :=
          Nat.not_lt.mpr (Nat.le_trans (h2 : sortKey a ≤ sortKey b) h1')
        simp [insertLast, List.orderedInsert, h1, h2, h5]
      · simp only [insertLast, List.orderedInsert, if_neg h1, if_neg h2]
        rw [ih]

/-- Stable sorting of a list with one element appended at the end inserts
that element after its key-ties in the sorted remainder. -/
theorem insertionSort_append_last (ml : List (String × LevelFilter))
    (x : String × LevelFilter) :
    List.insertionSort moduleLevelLE (ml ++ [x]) =
      insertLast x (List.insertionSort moduleLevelLE ml) := by
  induction ml with
  | nil => rfl
  | cons a t ih =>
    rw [List.cons_append, List.insertionSort, ih, orderedInsert_insertLast,
      ← List.insertionSort]

/-- Inserting a non-matching element anywhere via insertLast does not change
the first match. -/
theorem find?_insertLast_no_match (f : String × LevelFilter → Bool)
    (x : String × LevelFilter) (m : List (String × LevelFilter)) (hx : f x = false) :
    List.find? f (insertLast x m) = List.find? f m := by
  induction m with
  | nil =>
    rw [insertLast, List.find?_cons_of_neg _ (by simp [hx])]
  | cons b t ih =>
    by_cases h1 : sortKey x < sortKey b
    · rw [insertLast, if_pos h1, List.find?_cons_of_neg _ (by simp [hx])]
    · rw [insertLast, if_neg h1]
      cases hfb : f b with
      | true => rw [List.find?_cons_of_pos _ hfb, List.find?_cons_of_pos _ hfb]
      | false =>
        rw [List.find?_cons_of_neg _ (by simp [hfb]), List.find?_cons_of_neg _ (by simp [hfb]),
          ih]

/-- Inserting, into a sorted list, an element that key-ties with an existing
element and agrees with it on the match predicate does not change the first
match. -/
theorem find?_insertLast_dup (f : String × LevelFilter → Bool)
    (x a : String × LevelFilter) (m : List (String × LevelFilter))
    (hsort : List.Sorted moduleLevelLE m) (ha : a ∈ m)
    (hkey : sortKey x = sortKey a) (hmatch : f x = f a) :
    List.find? f (insertLast x m) = List.find? f m := by
  induction m with
  | nil => exact absurd ha (List.not_mem_nil a)
  | cons b t ih =>
    obtain ⟨hb, ht⟩ := List.sorted_cons.mp hsort
    by_cases h1 : sortKey x < sortKey b
    · exfalso
      rcases List.mem_cons.mp ha with rfl | hat
      · omega
      · have := hb a hat
        have h2 : sortKey b ≤ sortKey a := this
        omega
    · rw [insertLast, if_neg h1]
      cases hfb : f b with
      | true => rw [List.find?_cons_of_pos _ hfb, List.find?_cons_of_pos _ hfb]
      | false =>
        rw [List.find?_cons_of_neg _ (by simp [hfb]), List.find?_cons_of_neg _ (by simp [hfb])]
        rcases List.mem_cons.mp ha with rfl | hat
        · exact find?_insertLast_no_match f x t (hmatch.trans hfb)
        · exact ih ht hat

/-- C2 counterexample: inserting the empty string and then a one-character
name leaves the table ordered with the empty (shorter) name first, because
wrapping_neg maps length 0 to key 0 while every positive length gets a huge
key; the vector is therefore not ordered by non-increasing name length. -/
theorem c2_counterexample_empty_name_first :
    ((SimpleLogger.new.with_module_level "" .info).with_module_level "a" .warn).module_levels
        = [("", .info), ("a", .warn)] ∧
      ¬ List.Pairwise (fun a b : String × LevelFilter => b.1.length ≤ a.1.length)
        (((SimpleLogger.new.with_module_level "" .info).with_module_level
          "a" .warn).module_levels) := by
  constructor
  · decide
  · decide

/-- Keys compare like reversed lengths, except that the empty name gets the
smallest key of all. -/
theorem sortKey_le_length_cases (a b : String × LevelFilter)
    (ha : a.1.length < 2 ^ 64) (hb : b.1.length < 2 ^ 64)
    (h : sortKey a ≤ sortKey b) :
    a.1.length = 0 ∨ (0 < b.1.length ∧ b.1.length ≤ a.1.length) := by
  have hN : (2 : Nat) ^ 64 = 18446744073709551616 := by norm_num
  unfold sortKey wrappingNeg at h
  rw [hN] at h ha hb
  rw [Nat.mod_eq_of_lt ha, Nat.mod_eq_of_lt hb] at h
  omega

/-- C2 amended: after every with_module_level call (on names of realistic,
below 2 to the 64, length), the table is ordered so that every empty-name
rule precedes all other rules, and the rules with non-empty names are in
non-increasing name length order; the claimed plain non-increasing length
order holds for the non-empty names but is broken by empty names, which sort
first instead of last. -/
theorem c2_amended_sorted_with_empty_first (l : SimpleLogger) (target : String)
    (level : LevelFilter)
    (hl : ∀ r ∈ l.module_levels, r.1.length < 2 ^ 64)
    (ht : target.length < 2 ^ 64) :
    List.Pairwise (fun a b : String × LevelFilter =>
        a.1.length = 0 ∨ (0 < b.1.length ∧ b.1.length ≤ a.1.length))
      ((l.with_module_level target level).module_levels) := by
  have hsorted : List.Pairwise moduleLevelLE
      ((l.with_module_level target level).module_levels) :=
    List.sorted_insertionSort moduleLevelLE (l.module_levels ++ [(target, level)])
  have hmem : ∀ r ∈ (l.with_module_level target level).module_levels, r.1.length < 2 ^ 64 := by
    intro r hr
    have hr2 : r ∈ l.module_levels ++ [(target, level)] :=
      (List.mem_insertionSort moduleLevelLE).mp hr
    rcases List.mem_append.mp hr2 with hm | hm
    · exact hl r hm
    · rw [List.mem_singleton.mp hm]
      exact ht
  exact List.Pairwise.imp_of_mem
    (fun {a b} hma hmb hab => sortKey_le_length_cases a b (hmem a hma) (hmem b hmb) hab)
    hsorted

/-- Witness for the amended C2 at a concrete insertion sequence. -/
theorem c2_amended_sorted_with_empty_first_witness :
    List.Pairwise (fun a b : String × LevelFilter =>
        a.1.length = 0 ∨ (0 < b.1.length ∧ b.1.length ≤ a.1.length))
      (((SimpleLogger.new.with_module_level "" .info).with_module_level
        "ab" .warn).module_levels) :=
  c2_amended_sorted_with_empty_first (SimpleLogger.new.with_module_level "" .info) "ab" .warn
    (by decide) (by decide)

/-- C10: registering the same name twice appends rather than replaces. Both
entries remain, in insertion order (the stable sort keeps key-ties in
original order), the decision for every target and level is unchanged by the
second registration, and in the two-rule table built from new, a matching
target is decided by the first-registered level. -/
theorem c10_duplicate_name_first_wins (l : SimpleLogger) (p : String) (a b : LevelFilter) :
    List.Sublist [(p, a), (p, b)]
        (((l.with_module_level p a).with_module_level p b).module_levels) ∧
      (∀ t s, ((l.with_module_level p a).with_module_level p b).enabled t s =
        (l.with_module_level p a).enabled t s) ∧
      (∀ t s, starts_with t p = true →
        ((SimpleLogger.new.with_module_level p a).with_module_level p b).enabled t s =
          decide (s.toLevelFilter.toNat ≤ a.toNat)) := by
  have hM1sorted : List.Sorted moduleLevelLE ((l.with_module_level p a).module_levels) :=
    List.sorted_insertionSort moduleLevelLE (l.module_levels ++ [(p, a)])
  have hmem : (p, a) ∈ (l.with_module_level p a).module_levels :=
    (List.mem_insertionSort moduleLevelLE).mpr
      (List.mem_append_right l.module_levels (List.mem_singleton_self (p, a)))
  have hM2 : ((l.with_module_level p a).with_module_level p b).module_levels =
      insertLast (p, b) ((l.with_module_level p a).module_levels) := by
    show List.insertionSort moduleLevelLE ((l.with_module_level p a).module_levels ++ [(p, b)])
        = _
    rw [insertionSort_append_last, List.Sorted.insertionSort_eq hM1sorted]
  refine ⟨?_, ?_, ?_⟩
  · exact List.pair_sublist_insertionSort (Nat.le_refl (sortKey (p, a)))
      (List.Sublist.append (List.singleton_sublist.mpr hmem) (List.Sublist.refl [(p, b)]))
  · intro t s
    unfold SimpleLogger.enabled
    rw [hM2, find?_insertLast_dup (fun r => starts_with t r.1) (p, b) (p, a)
      ((l.with_module_level p a).module_levels) hM1sorted hmem rfl rfl]
    rfl
  · intro t s hts
    have hlist : ((SimpleLogger.new.with_module_level p a).with_module_level
        p b).module_levels = [(p, a), (p, b)] := by
      show List.insertionSort moduleLevelLE
          (List.insertionSort moduleLevelLE ([] ++ [(p, a)]) ++ [(p, b)]) = _
      rw [List.nil_append]
      rw [insertionSort_append_last]
      show insertLast (p, b) [(p, a)] = _
      have hirr : ¬ sortKey (p, b) < sortKey (p, a) := Nat.lt_irrefl _
      rw [insertLast, if_neg hirr, insertLast]
    have hfind : List.find? (fun r : String × LevelFilter => starts_with t r.1)
        [(p, a), (p, b)] = some (p, a) := by
      simp [List.find?, hts]
    unfold SimpleLogger.enabled
    rw [hlist, hfind]
    rfl

/-- Witness for C10 at a concrete duplicate registration. -/
theorem c10_duplicate_name_first_wins_witness :
    List.Sublist [("x", LevelFilter.info), ("x", LevelFilter.warn)]
        (((SimpleLogger.new.with_module_level "x" .info).with_module_level
          "x" .warn).module_levels) ∧
      (((SimpleLogger.new.with_module_level "x" .info).with_module_level
          "x" .warn).enabled "x::y" Level.debug =
        (SimpleLogger.new.with_module_level "x" .info).enabled "x::y" Level.debug) ∧
      (((SimpleLogger.new.with_module_level "x" .info).with_module_level
          "x" .warn).enabled "x::y" Level.debug =
        decide (Level.debug.toLevelFilter.toNat ≤ LevelFilter.info.toNat)) :=
  ⟨(c10_duplicate_name_first_wins SimpleLogger.new "x" .info .warn).1,
   (c10_duplicate_name_first_wins SimpleLogger.new "x" .info .warn).2.1 "x::y" Level.debug,
   (c10_duplicate_name_first_wins SimpleLogger.new "x" .info .warn).2.2 "x::y" Level.debug
     (by decide)⟩
